import Mathlib

/-!
Verification of the transflow markdown-translation pipeline.

This file gives a shallow embedding, in Lean 4, of the core operations of the
transflow repository and proves (or refutes) the specification claims about
them.  The embedding follows the Python source:

* `src/transflow/core/translator.py` — the marko AST walkers
  (`_extract_translatable_nodes`, `_extract_text_from_inline`,
  `_apply_translations`, `_replace_text_in_inline`, `translate_file`);
* `src/transflow/core/llm.py` — `translate_batch` / `_translate_individually`,
  with the LLM provider modelled as an oracle of call outcomes;
* `src/transflow/utils/http.py` — the tenacity retry loop around requests;
* `src/transflow/core/bundler.py` — image-URL extraction, the download map and
  the link rewriting, plus a small labelled transition system for the
  semaphore-bounded concurrent download of `_download_assets`.

Python mutable state (in-place mutation of AST nodes) is modelled by explicit
state passing: a function's result is the post-state of the objects the Python
code mutates.  Fallible provider/transport calls are modelled with `Except`
and oracles `Nat → CallResult` giving the outcome of the n-th call.
-/

set_option autoImplicit false

namespace Transflow

/-! ### Python string primitives

The Python code uses `str.strip()` (also as a truthiness test) and
`str.split(sep)`.  They are modelled here over `String.data` (the list of
code points, which is exactly what Python strings are sequences of) by
structurally recursive functions, so that every definition in this file
evaluates inside the kernel.  Whitespace is `Char.isWhitespace`
(space/tab/CR/LF — the ASCII core of Python's whitespace class). -/

/-- `not s.strip()`: the string contains only whitespace (or is empty). -/
def isBlank (s : String) : Bool :=
  s.data.all Char.isWhitespace

/-- `s.strip()`: remove leading and trailing whitespace. -/
def pyStrip (s : String) : String :=
  ⟨(((s.data.dropWhile Char.isWhitespace).reverse.dropWhile Char.isWhitespace).reverse)⟩

/-- Worker for `pySplitOn`: `acc` is the current segment reversed, `fuel`
bounds the recursion (any `fuel` larger than the remaining length is exact).
A match of `sep` at the current position ends the segment and skips the
separator. -/
def pySplitOnAux (sep : List Char) : Nat → List Char → List Char → List (List Char)
  | 0, acc, rest => [acc.reverse ++ rest]
  | _ + 1, acc, [] => [acc.reverse]
  | fuel + 1, acc, c :: cs =>
    if sep.isPrefixOf (c :: cs) then
      acc.reverse :: pySplitOnAux sep fuel [] ((c :: cs).drop sep.length)
    else
      pySplitOnAux sep fuel (c :: acc) cs

/-- `s.split(sep)` for a non-empty separator: non-overlapping, left to
right; `"".split(sep) = [""]`. -/
def pySplitOn (s sep : String) : List String :=
  (pySplitOnAux sep.data (s.data.length + 1) [] s.data).map String.mk

/-- Model of the marko AST node objects used by `translator.py`.  One single
type mirrors Python's dynamic typing (block and inline nodes flow through the
same traversal code).  String-leaf nodes: marko stores a `CodeBlock` /
`FencedCode` body as a single `RawText` child (exposed via `nodeChildren`
below); an `HTMLBlock`'s `children` attribute is a raw string, which the
walkers of `translator.py` never extract text from. -/
inductive Node where
  | document (children : List Node)
  | paragraph (children : List Node)
  | heading (level : Nat) (children : List Node)
  | quote (children : List Node)
  | codeBlock (code : String)
  | fencedCode (info : String) (code : String)
  | htmlBlock (body : String)
  | listBlock (children : List Node)
  | listItem (children : List Node)
  | thematicBreak
  | blankLine
  | rawText (s : String)
  | codeSpan (s : String)
  | link (dest : String) (children : List Node)
  | image (dest : String) (children : List Node)
  | emphasis (children : List Node)
  | strong (children : List Node)
  | lineBreak

/-- The `children` attribute of a node, as a list of child nodes.  For
`codeBlock`/`fencedCode` this is the singleton `RawText` child that marko
creates for the verbatim body; for `htmlBlock`/`rawText`/`codeSpan` the Python
attribute is a plain string (iterating it yields characters, which contribute
nothing to any traversal), modelled as no child nodes. -/
def nodeChildren : Node → List Node
  | .document cs => cs
  | .paragraph cs => cs
  | .heading _ cs => cs
  | .quote cs => cs
  | .codeBlock c => [.rawText c]
  | .fencedCode _ c => [.rawText c]
  | .htmlBlock _ => []
  | .listBlock cs => cs
  | .listItem cs => cs
  | .thematicBreak => []
  | .blankLine => []
  | .rawText _ => []
  | .codeSpan _ => []
  | .link _ cs => cs
  | .image _ cs => cs
  | .emphasis cs => cs
  | .strong cs => cs
  | .lineBreak => []

mutual
/-- The inner `extract` closure of
`MarkdownTranslator._extract_text_from_inline`: `RawText` contributes its
string, `CodeSpan` is skipped, `Link`/`Image` recurse into their children
(the textual label — the `dest` URL is never touched), and any other node
with children recurses into them. -/
def extractParts : Node → List String
  | .rawText s => [s]
  | .codeSpan _ => []
  | .link _ cs => extractPartsList cs
  | .image _ cs => extractPartsList cs
  | .document cs => extractPartsList cs
  | .paragraph cs => extractPartsList cs
  | .heading _ cs => extractPartsList cs
  | .quote cs => extractPartsList cs
  | .codeBlock c => [c]
  | .fencedCode _ c => [c]
  | .htmlBlock _ => []
  | .listBlock cs => extractPartsList cs
  | .listItem cs => extractPartsList cs
  | .emphasis cs => extractPartsList cs
  | .strong cs => extractPartsList cs
  | .thematicBreak => []
  | .blankLine => []
  | .lineBreak => []

/-- `extract` mapped over a list of children (the `for child in ...: extract`
loops of `_extract_text_from_inline`). -/
def extractPartsList : List Node → List String
  | [] => []
  | n :: ns => extractParts n ++ extractPartsList ns
end

/-- `MarkdownTranslator._extract_text_from_inline`: concatenation of the
extracted parts of the node's children. -/
def extractTextFromInline (n : Node) : String :=
  String.join (extractPartsList (nodeChildren n))

mutual
/-- The `traverse` closure of `MarkdownTranslator._extract_translatable_nodes`:
code blocks, fenced code and HTML blocks are skipped (early `return`, no
recursion); a `Paragraph`/`Heading`/`Quote` whose flattened text is not
whitespace-only is appended as a `(node, text)` unit; then the walk recurses
into the node's children. -/
def traverse : Node → List (Node × String)
  | .codeBlock _ => []
  | .fencedCode _ _ => []
  | .htmlBlock _ => []
  | .document cs => traverseList cs
  | .paragraph cs =>
    (if isBlank (extractTextFromInline (.paragraph cs)) then []
     else [(.paragraph cs, extractTextFromInline (.paragraph cs))]) ++ traverseList cs
  | .heading lvl cs =>
    (if isBlank (extractTextFromInline (.heading lvl cs)) then []
     else [(.heading lvl cs, extractTextFromInline (.heading lvl cs))]) ++ traverseList cs
  | .quote cs =>
    (if isBlank (extractTextFromInline (.quote cs)) then []
     else [(.quote cs, extractTextFromInline (.quote cs))]) ++ traverseList cs
  | .listBlock cs => traverseList cs
  | .listItem cs => traverseList cs
  | .link _ cs => traverseList cs
  | .image _ cs => traverseList cs
  | .emphasis cs => traverseList cs
  | .strong cs => traverseList cs
  | .thematicBreak => []
  | .blankLine => []
  | .rawText _ => []
  | .codeSpan _ => []
  | .lineBreak => []

/-- `traverse` over a list of children. -/
def traverseList : List Node → List (Node × String)
  | [] => []
  | n :: ns => traverse n ++ traverseList ns
end

/-- `MarkdownTranslator._extract_translatable_nodes`. -/
def extractTranslatableNodes (doc : Node) : List (Node × String) :=
  traverse doc

/-- True for the block kinds that contribute translatable units
(`Paragraph`, `Heading`, `Quote`). -/
def isTranslatableBlock : Node → Bool
  | .paragraph _ => true
  | .heading _ _ => true
  | .quote _ => true
  | _ => false

mutual
/-- Post-state of one node under the `traverse` closure of
`MarkdownTranslator._apply_translations` (with `_replace_text_in_inline`
inlined).  The Python code mutates the node objects of the parsed document in
place: when a `Paragraph`/`Heading`/`Quote` has a non-blank flattened text
that is a key of the `translations` dict, its `children` attribute is
reassigned to a single freshly created `RawText` node carrying the
translation, after which the walk recurses into that sole `RawText` child (a
no-op).  Otherwise the walk recurses into the node's existing children.  The
translations dict is modelled as `tr : String → Option String` (`none` means
the key is absent). -/
def applyNode (tr : String → Option String) : Node → Node
  | .codeBlock c => .codeBlock c
  | .fencedCode info c => .fencedCode info c
  | .htmlBlock b => .htmlBlock b
  | .document cs => .document (applyList tr cs)
  | .paragraph cs =>
    match (if isBlank (extractTextFromInline (.paragraph cs)) then none
           else tr (extractTextFromInline (.paragraph cs))) with
    | some s => .paragraph [.rawText s]
    | none => .paragraph (applyList tr cs)
  | .heading lvl cs =>
    match (if isBlank (extractTextFromInline (.heading lvl cs)) then none
           else tr (extractTextFromInline (.heading lvl cs))) with
    | some s => .heading lvl [.rawText s]
    | none => .heading lvl (applyList tr cs)
  | .quote cs =>
    match (if isBlank (extractTextFromInline (.quote cs)) then none
           else tr (extractTextFromInline (.quote cs))) with
    | some s => .quote [.rawText s]
    | none => .quote (applyList tr cs)
  | .listBlock cs => .listBlock (applyList tr cs)
  | .listItem cs => .listItem (applyList tr cs)
  | .link d cs => .link d (applyList tr cs)
  | .image d cs => .image d (applyList tr cs)
  | .emphasis cs => .emphasis (applyList tr cs)
  | .strong cs => .strong (applyList tr cs)
  | .thematicBreak => .thematicBreak
  | .blankLine => .blankLine
  | .rawText s => .rawText s
  | .codeSpan s => .codeSpan s
  | .lineBreak => .lineBreak

/-- `applyNode` over a list of children. -/
def applyList (tr : String → Option String) : List Node → List Node
  | [] => []
  | n :: ns => applyNode tr n :: applyList tr ns
end

/-- `MarkdownTranslator._apply_translations`: the document after the
in-place traversal.  Because the Python implementation mutates the parsed
document itself, the value returned here is the state of the original
document's nodes once the call returns. -/
def applyTranslations (tr : String → Option String) (doc : Node) : Node :=
  applyNode tr doc

/-- Pure skeleton of `MarkdownTranslator.translate_file`: parse the input
`content` into `doc` (marko's parser, passed as a pair of already-parsed data),
extract the translatable nodes; if none are found the original `content`
string is written out verbatim; otherwise the translations are applied to the
document tree and the rendered result (`marko.render`, modelled by the
`render` parameter) is written. -/
def translateFileOutput (content : String) (doc : Node)
    (render : Node → String) (tr : String → Option String) : String :=
  if (extractTranslatableNodes doc).isEmpty then content
  else render (applyTranslations tr doc)

/-- Block kinds with no translatable content: code blocks, fenced code and
raw-markup (HTML) blocks, plus blank lines (which carry no block content at
all in a marko document). -/
def isNonTranslatableTopBlock : Node → Bool
  | .codeBlock _ => true
  | .fencedCode _ _ => true
  | .htmlBlock _ => true
  | .blankLine => true
  | _ => false

mutual
/-- Transform that rewrites the verbatim payload of every `CodeSpan` in a
tree, leaving everything else intact.  Used to state that flattened text never
depends on code-span content. -/
def mapCodeSpans (f : String → String) : Node → Node
  | .codeSpan s => .codeSpan (f s)
  | .document cs => .document (mapCodeSpansList f cs)
  | .paragraph cs => .paragraph (mapCodeSpansList f cs)
  | .heading lvl cs => .heading lvl (mapCodeSpansList f cs)
  | .quote cs => .quote (mapCodeSpansList f cs)
  | .codeBlock c => .codeBlock c
  | .fencedCode info c => .fencedCode info c
  | .htmlBlock b => .htmlBlock b
  | .listBlock cs => .listBlock (mapCodeSpansList f cs)
  | .listItem cs => .listItem (mapCodeSpansList f cs)
  | .link d cs => .link d (mapCodeSpansList f cs)
  | .image d cs => .image d (mapCodeSpansList f cs)
  | .emphasis cs => .emphasis (mapCodeSpansList f cs)
  | .strong cs => .strong (mapCodeSpansList f cs)
  | .thematicBreak => .thematicBreak
  | .blankLine => .blankLine
  | .rawText s => .rawText s
  | .lineBreak => .lineBreak

/-- `mapCodeSpans` over a list of children. -/
def mapCodeSpansList (f : String → String) : List Node → List Node
  | [] => []
  | n :: ns => mapCodeSpans f n :: mapCodeSpansList f ns
end

mutual
/-- Transform that rewrites the URL of every `Link`/`Image` in a tree,
leaving everything else intact.  Used to state that flattened text never
depends on URLs. -/
def mapUrls (g : String → String) : Node → Node
  | .link d cs => .link (g d) (mapUrlsList g cs)
  | .image d cs => .image (g d) (mapUrlsList g cs)
  | .document cs => .document (mapUrlsList g cs)
  | .paragraph cs => .paragraph (mapUrlsList g cs)
  | .heading lvl cs => .heading lvl (mapUrlsList g cs)
  | .quote cs => .quote (mapUrlsList g cs)
  | .codeBlock c => .codeBlock c
  | .fencedCode info c => .fencedCode info c
  | .htmlBlock b => .htmlBlock b
  | .listBlock cs => .listBlock (mapUrlsList g cs)
  | .listItem cs => .listItem (mapUrlsList g cs)
  | .emphasis cs => .emphasis (mapUrlsList g cs)
  | .strong cs => .strong (mapUrlsList g cs)
  | .thematicBreak => .thematicBreak
  | .blankLine => .blankLine
  | .rawText s => .rawText s
  | .codeSpan s => .codeSpan s
  | .lineBreak => .lineBreak

/-- `mapUrls` over a list of children. -/
def mapUrlsList (g : String → String) : List Node → List Node
  | [] => []
  | n :: ns => mapUrls g n :: mapUrlsList g ns
end

/-! ### LLM batch translation (`src/transflow/core/llm.py`)

The remote provider is external to the repository, so a call to it is
modelled by its outcome: `CallResult.ok content` is a successful HTTP round
trip whose parsed message content is `content`; `CallResult.err` is any
raised exception (transport failure, provider failure, malformed payload).
`LLMClient.translate_batch` makes one combined request (`batchResult` below)
and, on fallback, `LLMClient.translate_text` makes one request per unit; the
outcomes of those per-unit requests are given by an oracle `Nat → CallResult`
indexed by the number of per-unit calls made so far.  Functions return the
call counter alongside the result so that the number of per-unit provider
calls is part of the semantics.  Python's `str.strip` is modelled by
`pyStrip` (and its truthiness test by `isBlank`), `str.split` by
`pySplitOn`. -/

/-- One provider call's outcome. -/
inductive CallResult where
  | ok (content : String)
  | err
deriving DecidableEq, Repr

/-- The reserved batch delimiter of `LLMClient.translate_batch`. -/
def SPLIT : String := "\n\n---SPLIT---\n\n"

/-- Number of entries whose stripped text is non-empty (the units that get a
provider call of their own in the fallback path). -/
def countNonBlank : List String → Nat
  | [] => 0
  | t :: ts => (if isBlank t then 0 else 1) + countNonBlank ts

/-- The reconstruction loop of `LLMClient.translate_batch`: start from a copy
of `texts` and overwrite the entries at the non-empty indices with the
successive stripped response segments (`zip` truncates at the shorter list,
exactly as in Python). -/
def reconstruct : List String → List String → List String
  | [], _ => []
  | t :: ts, segs =>
    if isBlank t then t :: reconstruct ts segs
    else
      match segs with
      | [] => t :: reconstruct ts []
      | s :: ss => pyStrip s :: reconstruct ts ss

/-- `LLMClient._translate_individually` with `LLMClient.translate_text`
inlined: walk the units in order; a blank unit is appended unchanged without
a provider call; a non-blank unit consumes the next per-unit call — on
success its stripped content is appended, on failure `translate_text` raises
`TranslationError`, which propagates (`Except.error`).  The second component
is the updated per-unit call counter. -/
def translateIndividually (oracle : Nat → CallResult) :
    List String → Nat → Except Unit (List String) × Nat
  | [], k => (.ok [], k)
  | t :: ts, k =>
    if isBlank t then
      match translateIndividually oracle ts k with
      | (.ok rs, j) => (.ok (t :: rs), j)
      | (.error e, j) => (.error e, j)
    else
      match oracle k with
      | .ok s =>
        match translateIndividually oracle ts (k + 1) with
        | (.ok rs, j) => (.ok (pyStrip s :: rs), j)
        | (.error e, j) => (.error e, j)
      | .err => (.error (), k + 1)

/-- `LLMClient.translate_batch`.  `batchResult` is the outcome of the single
combined request for the delimiter-joined non-empty units; `oracle` feeds the
per-unit fallback calls.  Control flow mirrors the Python source: empty input
and all-blank input return early without any provider call; an exception from
the combined request is caught and triggers the per-unit fallback; a
segment-count mismatch triggers the per-unit fallback *inside* the `try`
block, so if that fallback itself raises, the `except` handler catches it and
runs the per-unit fallback once more (continuing the call counter); a raise
from that second run propagates.  The second component counts the per-unit
fallback calls made. -/
def translateBatch (batchResult : CallResult) (oracle : Nat → CallResult)
    (texts : List String) : Except Unit (List String) × Nat :=
  if texts = [] then (.ok [], 0)
  else
    let nonEmpty := texts.filter (fun t => !(isBlank t))
    if nonEmpty = [] then (.ok texts, 0)
    else
      match batchResult with
      | .err => translateIndividually oracle texts 0
      | .ok content =>
        let segs := pySplitOn (pyStrip content) SPLIT
        if segs.length = nonEmpty.length then (.ok (reconstruct texts segs), 0)
        else
          match translateIndividually oracle texts 0 with
          | (.ok rs, j) => (.ok rs, j)
          | (.error _, j) => translateIndividually oracle texts j

/-- Reference description of a successful fallback pass: blank units pass
through, the i-th non-blank unit receives the stripped content of the i-th
per-unit call (`f k` being the content of call number `k`), starting from
call number `k`. -/
def fallbackResult (f : Nat → String) : List String → Nat → List String
  | [], _ => []
  | t :: ts, k =>
    if isBlank t then t :: fallbackResult f ts k
    else pyStrip (f k) :: fallbackResult f ts (k + 1)

/-! ### Retrying HTTP transport (`src/transflow/utils/http.py`)

`HTTPClient.get`/`HTTPClient.post` wrap one attempt (an `httpx` request
followed by `response.raise_for_status()`) in a tenacity `@retry` decorator
with `stop_after_attempt(max_retries)`, exponential backoff and
`retry_if_exception_type((httpx.TimeoutException, httpx.NetworkError,
httpx.HTTPStatusError))`.  An attempt's outcome is modelled by `Attempt`:
`ok` is a 2xx response; `httpStatus c` is a response with status `c` outside
the 2xx range, turned into an `httpx.HTTPStatusError` by
`raise_for_status()`; `timeout` and `connError` are the connection-level
failures.  The sequence of attempt outcomes is an oracle `Nat → Attempt`. -/

/-- Outcome of a single request attempt, after `raise_for_status()`. -/
inductive Attempt where
  | ok
  | timeout
  | connError
  | httpStatus (code : Nat)
deriving DecidableEq, Repr

/-- The `retry_if_exception_type` predicate used by both `HTTPClient.get` and
`HTTPClient.post`: it matches `httpx.TimeoutException`, `httpx.NetworkError`
and `httpx.HTTPStatusError` — the latter regardless of the status code that
produced it. -/
def shouldRetryException : Attempt → Bool
  | .ok => false
  | .timeout => true
  | .connError => true
  | .httpStatus _ => true

/-- The tenacity retry loop with `stop_after_attempt` and `reraise=True`:
`left` is the number of attempts still allowed, `i` the index of the next
attempt.  A successful attempt returns `.ok` with the total number of
attempts made; a failing attempt is retried while its exception matches
`shouldRetryException` and attempts remain, otherwise the exception is
(re)raised.  `HTTPClient.get`/`post` enter the loop with
`left = max_retries` and `i = 0`. -/
def retryExec (trace : Nat → Attempt) : Nat → Nat → Except Attempt Nat
  | 0, _ => .error .connError
  | 1, i =>
    match trace i with
    | .ok => .ok (i + 1)
    | e => .error e
  | left + 2, i =>
    match trace i with
    | .ok => .ok (i + 1)
    | e => if shouldRetryException e then retryExec trace (left + 1) (i + 1) else .error e

/-! ### Asset bundling (`src/transflow/core/bundler.py`)

The document text is modelled at the granularity at which the bundler's
regular expressions operate: a sequence of pieces, each either plain text or
one image-reference occurrence `![alt](url)` / `![alt](url "title")`.
`AssetBundler._extract_image_urls` is `re.findall` of the image pattern
(capture group = the URL) filtered to http/https; Python's
`url.startswith(("http://", "https://"))` compares code points, modelled on
`String.data`.  `AssetBundler._generate_asset_filename` (urlparse plus an md5
fallback, both external library calls) is abstracted as a function
`fname : String → String`; the success or failure of
`HTTPClient.download_file` for each URL is an oracle `ok : String → Bool`. -/

/-- One piece of the document text: plain text between image references, or
one image-reference occurrence with its alt text, URL and optional title. -/
inductive Piece where
  | txt (s : String)
  | img (alt : String) (url : String) (title : Option String)
deriving DecidableEq, Repr

/-- `url.startswith(prefix)`: code-point prefix test. -/
def strStartsWith (s pre : String) : Bool :=
  pre.data.isPrefixOf s.data

/-- The http/https filter of `AssetBundler._extract_image_urls`. -/
def isHttpUrl (u : String) : Bool :=
  strStartsWith u "http://" || strStartsWith u "https://"

/-- The URL of an image piece, `none` for plain text (the `re.findall`
capture). -/
def pieceUrl : Piece → Option String
  | .txt _ => none
  | .img _ u _ => some u

/-- `AssetBundler._extract_image_urls`: all image-reference URLs in order of
occurrence, filtered to http/https.  Note the source performs no
deduplication. -/
def extractImageUrls (content : List Piece) : List String :=
  (content.filterMap pieceUrl).filter isHttpUrl

/-- Outcome of `AssetBundler._download_assets.download_one` for each URL in
order: the pair `(url, some filename)` on success, `(url, none)` when the
download raised and was swallowed. -/
def downloadAssets (ok : String → Bool) (fname : String → String)
    (urls : List String) : List (String × Option String) :=
  urls.map (fun u => (u, if ok u then some (fname u) else none))

/-- The mapping-building loop after `asyncio.gather`: keep the successful
downloads, skip the failed ones. -/
def buildDownloadMap (results : List (String × Option String)) : List (String × String) :=
  results.filterMap (fun r => match r.2 with
    | some f => some (r.1, f)
    | none => none)

/-- One `re.sub` pass of `AssetBundler._rewrite_image_links` for the entry
`(url, fn)` of the download map: every image reference whose URL is exactly
`url` becomes `![alt](assets/fn)` — the replacement template uses only the
alt-text capture group, so an existing title is dropped. -/
def rewritePiece (url fn : String) : Piece → Piece
  | .txt s => .txt s
  | .img alt u title =>
    if u = url then .img alt ("assets/" ++ fn) none else .img alt u title

/-- `AssetBundler._rewrite_image_links`: fold the per-URL substitution over
the download map. -/
def rewriteImageLinks (content : List Piece) (downloads : List (String × String)) :
    List Piece :=
  downloads.foldl (fun acc uf => acc.map (rewritePiece uf.1 uf.2)) content

/-- All substitution passes of the download map, applied to one piece (the
per-piece view of `rewriteImageLinks`, since each `re.sub` pass maps over the
pieces independently). -/
def rewriteAll (downloads : List (String × String)) (p : Piece) : Piece :=
  downloads.foldl (fun q uf => rewritePiece uf.1 uf.2 q) p

/-- Reference description (following the specification's words) of the
rewritten document: an image reference whose URL is http/https and whose
download succeeded points at `assets/<filename>`; every other piece — plain
text, non-http references, failed downloads — is unchanged. -/
def rewriteSpecPiece (ok : String → Bool) (fname : String → String) : Piece → Piece
  | .txt s => .txt s
  | .img alt u title =>
    if isHttpUrl u && ok u then .img alt ("assets/" ++ fname u) none
    else .img alt u title

/-! ### Bounded-concurrency download pool (`AssetBundler._download_assets`)

`_download_assets` spawns one `download_one` coroutine per URL and awaits
`asyncio.gather`; each coroutine wraps its download in
`async with semaphore` where the semaphore is `asyncio.Semaphore(M)` and `M =
config.http_concurrent_downloads` (validated to `1 ≤ M ≤ 20` by
`TransFlowConfig.validate_concurrent_downloads`).  The interleaving of the
coroutines is modelled as a labelled transition system: task `i` moves from
`pending` to `running` (acquiring the semaphore, which must be positive) and
from `running` to `done ok` (the download finishing — successfully or by a
swallowed exception — and releasing the semaphore). -/

/-- Lifecycle state of one download task. -/
inductive TaskSt where
  | pending
  | running
  | done (ok : Bool)
deriving DecidableEq, Repr

/-- Global state of the download pool: one task per URL plus the semaphore
counter. -/
structure DlState where
  tasks : List TaskSt
  sem : Nat
deriving DecidableEq, Repr

/-- A scheduler event: task `i` starts its download, or task `i` finishes
with success flag `ok`. -/
inductive DlLabel where
  | start (i : Nat)
  | finish (i : Nat) (ok : Bool)
deriving DecidableEq, Repr

/-- Initial state for `M` semaphore permits and `n` URLs. -/
def initState (m n : Nat) : DlState :=
  ⟨List.replicate n .pending, m⟩

/-- Small-step semantics of the pool: `none` when the event is not enabled.
`start i` requires task `i` pending and a free semaphore permit; `finish i
ok` requires task `i` running.  A failed download (`ok = false`) takes the
same `finish` step as a successful one: the exception is swallowed inside
`download_one`, so it releases the semaphore and never touches the other
tasks. -/
def applyLabel : DlLabel → DlState → Option DlState
  | .start i, s =>
    match s.tasks[i]? with
    | some .pending => if s.sem = 0 then none else some ⟨s.tasks.set i .running, s.sem - 1⟩
    | _ => none
  | .finish i ok, s =>
    match s.tasks[i]? with
    | some .running => some ⟨s.tasks.set i (.done ok), s.sem + 1⟩
    | _ => none

/-- Run a sequence of events from a state; `none` as soon as an event is not
enabled. -/
def runTrace : List DlLabel → DlState → Option DlState
  | [], s => some s
  | l :: ls, s =>
    match applyLabel l s with
    | some s' => runTrace ls s'
    | none => none

/-- Number of downloads in flight. -/
def runningCount (s : DlState) : Nat :=
  s.tasks.countP (fun t => t == .running)

/-- All tasks have settled (successfully or not): the moment `asyncio.gather`
returns. -/
def isFinal (s : DlState) : Bool :=
  s.tasks.all (fun t => match t with | .done _ => true | _ => false)

/-- How many times task `i` was started along a trace. -/
def countStart (tr : List DlLabel) (i : Nat) : Nat :=
  (tr.filter (fun l => l == .start i)).length

/-- How many times a task was started, read off its state. -/
def started : TaskSt → Nat
  | .pending => 0
  | .running => 1
  | .done _ => 1

/-- `started`, lifted to the result of an indexed lookup. -/
def startedO : Option TaskSt → Nat
  | none => 0
  | some t => started t

/-! ### Concrete sample inputs used by counterexamples and witnesses -/

/-- A one-paragraph parsed document. -/
def exDoc : Node :=
  .document [.paragraph [.rawText "Hello"]]

/-- A translations dict containing the single pair `"Hello" ↦ "Bonjour"`. -/
def exTranslations : String → Option String :=
  fun t => if t = "Hello" then some "Bonjour" else none

/-- An attempt oracle whose first attempt yields a 400 (client error)
response and whose later attempts succeed. -/
def badRequestTrace : Nat → Attempt :=
  fun i => if i = 0 then .httpStatus 400 else .ok

/-- A document containing the same remote image reference twice. -/
def dupImageContent : List Piece :=
  [.img "a" "https://x/i.png" none, .txt " and ", .img "b" "https://x/i.png" none]

/-- A complete schedule of the download pool for 8 URLs under 3 semaphore
permits, with three of the downloads failing. -/
def dlTrace : List DlLabel :=
  [.start 0, .start 1, .start 2, .finish 0 false, .start 3, .finish 1 true,
   .start 4, .finish 2 false, .start 5, .finish 3 true, .start 6,
   .finish 4 true, .start 7, .finish 5 true, .finish 6 false, .finish 7 true]

/-- The state `dlTrace` reaches from `initState 3 8`. -/
def dlFinal : DlState :=
  ⟨[.done false, .done true, .done false, .done true, .done true, .done true,
    .done false, .done true], 3⟩

/-! ## Theorems -/

/-- Claim C1, refuted.  The claim states that applying translations never
mutates the node objects of the original `Document`.  In the source,
`_apply_translations` reassigns the `children` attribute of matched blocks of
the parsed document itself, so the post-state of the original document (which
is what `applyTranslations` computes) differs from its pre-state: translating
the one-paragraph document `exDoc` with the mapping `"Hello" ↦ "Bonjour"`
leaves the original document's paragraph holding `"Bonjour"`. -/
theorem c1_counterexample :
    applyTranslations exTranslations exDoc
        = Node.document [Node.paragraph [Node.rawText "Bonjour"]]
    ∧ applyTranslations exTranslations exDoc ≠ exDoc := by
  constructor
  · rfl
  · intro h
    have h2 : Node.document [Node.paragraph [Node.rawText "Bonjour"]]
        = Node.document [Node.paragraph [Node.rawText "Hello"]] := h
    simp at h2

/-- Claim C1, amended: applying translations mutates the original document's
blocks in place — a `Paragraph`/`Heading`/`Quote` whose flattened text is
non-blank and present in the mapping has its inline children replaced (in
place) by a single new `RawText` node carrying the translation, while
code/fenced/HTML blocks are left untouched; no fresh tree is built. -/
theorem c1_amended_in_place_update (tr : String → Option String) :
    (∀ cs s, isBlank (extractTextFromInline (Node.paragraph cs)) = false →
        tr (extractTextFromInline (Node.paragraph cs)) = some s →
        applyNode tr (Node.paragraph cs) = Node.paragraph [Node.rawText s])
    ∧ (∀ lvl cs s, isBlank (extractTextFromInline (Node.heading lvl cs)) = false →
        tr (extractTextFromInline (Node.heading lvl cs)) = some s →
        applyNode tr (Node.heading lvl cs) = Node.heading lvl [Node.rawText s])
    ∧ (∀ cs s, isBlank (extractTextFromInline (Node.quote cs)) = false →
        tr (extractTextFromInline (Node.quote cs)) = some s →
        applyNode tr (Node.quote cs) = Node.quote [Node.rawText s])
    ∧ (∀ c, applyNode tr (Node.codeBlock c) = Node.codeBlock c)
    ∧ (∀ info c, applyNode tr (Node.fencedCode info c) = Node.fencedCode info c)
    ∧ (∀ b, applyNode tr (Node.htmlBlock b) = Node.htmlBlock b) := by
  refine ⟨?_, ?_, ?_, ?_, ?_, ?_⟩
  · intro cs s h1 h2
    simp [applyNode, h1, h2]
  · intro lvl cs s h1 h2
    simp [applyNode, h1, h2]
  · intro cs s h1 h2
    simp [applyNode, h1, h2]
  · intro c; simp [applyNode]
  · intro info c; simp [applyNode]
  · intro b; simp [applyNode]

/-- Witness for the amended C1 theorem at the concrete paragraph
`"Hello"`. -/
theorem c1_amended_in_place_update_witness :
    applyNode exTranslations (Node.paragraph [Node.rawText "Hello"])
      = Node.paragraph [Node.rawText "Bonjour"] :=
  (c1_amended_in_place_update exTranslations).1 [Node.rawText "Hello"] "Bonjour"
    (by decide) (by decide)

mutual
/-- Every unit yielded by the extraction walk comes from a
`Paragraph`/`Heading`/`Quote` node, carries that node's flattened text, and
is not whitespace-only. -/
theorem mem_traverse_spec : ∀ (n : Node) (p : Node × String), p ∈ traverse n →
    isTranslatableBlock p.1 = true ∧ isBlank p.2 = false ∧ p.2 = extractTextFromInline p.1
  | .codeBlock _, p, hp => by simp [traverse] at hp
  | .fencedCode _ _, p, hp => by simp [traverse] at hp
  | .htmlBlock _, p, hp => by simp [traverse] at hp
  | .document cs, p, hp => mem_traverseList_spec cs p (by simpa [traverse] using hp)
  | .paragraph cs, p, hp => by
    have hp' : p ∈ (if isBlank (extractTextFromInline (Node.paragraph cs)) then []
        else [(Node.paragraph cs, extractTextFromInline (Node.paragraph cs))])
        ++ traverseList cs := hp
    rcases List.mem_append.mp hp' with h1 | h2
    · by_cases hb : isBlank (extractTextFromInline (Node.paragraph cs))
      · rw [if_pos hb] at h1
        simp at h1
      · rw [if_neg hb] at h1
        rcases List.mem_singleton.mp h1 with rfl
        exact ⟨rfl, by simpa using hb, rfl⟩
    · exact mem_traverseList_spec cs p h2
  | .heading lvl cs, p, hp => by
    have hp' : p ∈ (if isBlank (extractTextFromInline (Node.heading lvl cs)) then []
        else [(Node.heading lvl cs, extractTextFromInline (Node.heading lvl cs))])
        ++ traverseList cs := hp
    rcases List.mem_append.mp hp' with h1 | h2
    · by_cases hb : isBlank (extractTextFromInline (Node.heading lvl cs))
      · rw [if_pos hb] at h1
        simp at h1
      · rw [if_neg hb] at h1
        rcases List.mem_singleton.mp h1 with rfl
        exact ⟨rfl, by simpa using hb, rfl⟩
    · exact mem_traverseList_spec cs p h2
  | .quote cs, p, hp => by
    have hp' : p ∈ (if isBlank (extractTextFromInline (Node.quote cs)) then []
        else [(Node.quote cs, extractTextFromInline (Node.quote cs))])
        ++ traverseList cs := hp
    rcases List.mem_append.mp hp' with h1 | h2
    · by_cases hb : isBlank (extractTextFromInline (Node.quote cs))
      · rw [if_pos hb] at h1
        simp at h1
      · rw [if_neg hb] at h1
        rcases List.mem_singleton.mp h1 with rfl
        exact ⟨rfl, by simpa using hb, rfl⟩
    · exact mem_traverseList_spec cs p h2
  | .listBlock cs, p, hp => mem_traverseList_spec cs p (by simpa [traverse] using hp)
  | .listItem cs, p, hp => mem_traverseList_spec cs p (by simpa [traverse] using hp)
  | .link _ cs, p, hp => mem_traverseList_spec cs p (by simpa [traverse] using hp)
  | .image _ cs, p, hp => mem_traverseList_spec cs p (by simpa [traverse] using hp)
  | .emphasis cs, p, hp => mem_traverseList_spec cs p (by simpa [traverse] using hp)
  | .strong cs, p, hp => mem_traverseList_spec cs p (by simpa [traverse] using hp)
  | .thematicBreak, p, hp => by simp [traverse] at hp
  | .blankLine, p, hp => by simp [traverse] at hp
  | .rawText _, p, hp => by simp [traverse] at hp
  | .codeSpan _, p, hp => by simp [traverse] at hp
  | .lineBreak, p, hp => by simp [traverse] at hp

/-- List version of `mem_traverse_spec`. -/
theorem mem_traverseList_spec : ∀ (ns : List Node) (p : Node × String), p ∈ traverseList ns →
    isTranslatableBlock p.1 = true ∧ isBlank p.2 = false ∧ p.2 = extractTextFromInline p.1
  | n :: ns, p, hp => by
    have hp' : p ∈ traverse n ++ traverseList ns := hp
    rcases List.mem_append.mp hp' with h1 | h2
    · exact mem_traverse_spec n p h1
    · exact mem_traverseList_spec ns p h2
end

mutual
/-- Rewriting code-span payloads does not change extracted text parts. -/
theorem extractParts_mapCodeSpans (f : String → String) :
    ∀ n, extractParts (mapCodeSpans f n) = extractParts n
  | .rawText _ => rfl
  | .codeSpan _ => rfl
  | .link _ cs => extractPartsList_mapCodeSpansList f cs
  | .image _ cs => extractPartsList_mapCodeSpansList f cs
  | .document cs => extractPartsList_mapCodeSpansList f cs
  | .paragraph cs => extractPartsList_mapCodeSpansList f cs
  | .heading _ cs => extractPartsList_mapCodeSpansList f cs
  | .quote cs => extractPartsList_mapCodeSpansList f cs
  | .codeBlock _ => rfl
  | .fencedCode _ _ => rfl
  | .htmlBlock _ => rfl
  | .listBlock cs => extractPartsList_mapCodeSpansList f cs
  | .listItem cs => extractPartsList_mapCodeSpansList f cs
  | .emphasis cs => extractPartsList_mapCodeSpansList f cs
  | .strong cs => extractPartsList_mapCodeSpansList f cs
  | .thematicBreak => rfl
  | .blankLine => rfl
  | .lineBreak => rfl

/-- List version of `extractParts_mapCodeSpans`. -/
theorem extractPartsList_mapCodeSpansList (f : String → String) :
    ∀ ns, extractPartsList (mapCodeSpansList f ns) = extractPartsList ns
  | [] => rfl
  | n :: ns => by
    have h1 := extractParts_mapCodeSpans f n
    have h2 := extractPartsList_mapCodeSpansList f ns
    simp [mapCodeSpansList, extractPartsList, h1, h2]
end

mutual
/-- Rewriting link/image URLs does not change extracted text parts. -/
theorem extractParts_mapUrls (g : String → String) :
    ∀ n, extractParts (mapUrls g n) = extractParts n
  | .rawText _ => rfl
  | .codeSpan _ => rfl
  | .link _ cs => extractPartsList_mapUrlsList g cs
  | .image _ cs => extractPartsList_mapUrlsList g cs
  | .document cs => extractPartsList_mapUrlsList g cs
  | .paragraph cs => extractPartsList_mapUrlsList g cs
  | .heading _ cs => extractPartsList_mapUrlsList g cs
  | .quote cs => extractPartsList_mapUrlsList g cs
  | .codeBlock _ => rfl
  | .fencedCode _ _ => rfl
  | .htmlBlock _ => rfl
  | .listBlock cs => extractPartsList_mapUrlsList g cs
  | .listItem cs => extractPartsList_mapUrlsList g cs
  | .emphasis cs => extractPartsList_mapUrlsList g cs
  | .strong cs => extractPartsList_mapUrlsList g cs
  | .thematicBreak => rfl
  | .blankLine => rfl
  | .lineBreak => rfl

/-- List version of `extractParts_mapUrls`. -/
theorem extractPartsList_mapUrlsList (g : String → String) :
    ∀ ns, extractPartsList (mapUrlsList g ns) = extractPartsList ns
  | [] => rfl
  | n :: ns => by
    have h1 := extractParts_mapUrls g n
    have h2 := extractPartsList_mapUrlsList g ns
    simp [mapUrlsList, extractPartsList, h1, h2]
end

/-- Flattened text is invariant under rewriting every code-span payload. -/
theorem extractTextFromInline_mapCodeSpans (f : String → String) (n : Node) :
    extractTextFromInline (mapCodeSpans f n) = extractTextFromInline n := by
  have h : nodeChildren (mapCodeSpans f n) = mapCodeSpansList f (nodeChildren n) := by
    cases n <;> rfl
  rw [extractTextFromInline, extractTextFromInline, h, extractPartsList_mapCodeSpansList]

/-- Flattened text is invariant under rewriting every link/image URL. -/
theorem extractTextFromInline_mapUrls (g : String → String) (n : Node) :
    extractTextFromInline (mapUrls g n) = extractTextFromInline n := by
  have h : nodeChildren (mapUrls g n) = mapUrlsList g (nodeChildren n) := by
    cases n <;> rfl
  rw [extractTextFromInline, extractTextFromInline, h, extractPartsList_mapUrlsList]

/-- Claim C4: the extractor yields units only from `Paragraph`/`Heading`/
`Quote` blocks, each carrying the block's flattened text, never
whitespace-only; code blocks, fenced code and raw-markup blocks yield
nothing and are not traversed; flattened text is independent of every
code-span payload and of every link/image URL (only textual labels
contribute); `Link`/`Image` contribute exactly their children's text and
`CodeSpan` contributes nothing. -/
theorem c4_extractor_contract (doc : Node) (f g : String → String) (c info b : String) :
    (∀ p ∈ extractTranslatableNodes doc,
        isTranslatableBlock p.1 = true ∧ isBlank p.2 = false
          ∧ p.2 = extractTextFromInline p.1)
    ∧ traverse (Node.codeBlock c) = []
    ∧ traverse (Node.fencedCode info c) = []
    ∧ traverse (Node.htmlBlock b) = []
    ∧ (∀ n, extractTextFromInline (mapCodeSpans f n) = extractTextFromInline n)
    ∧ (∀ n, extractTextFromInline (mapUrls g n) = extractTextFromInline n)
    ∧ (∀ u cs, extractParts (Node.link u cs) = extractPartsList cs)
    ∧ (∀ u cs, extractParts (Node.image u cs) = extractPartsList cs)
    ∧ (∀ s, extractParts (Node.codeSpan s) = []) := by
  refine ⟨?_, rfl, rfl, rfl, ?_, ?_, ?_, ?_, ?_⟩
  · intro p hp
    exact mem_traverse_spec doc p hp
  · exact extractTextFromInline_mapCodeSpans f
  · exact extractTextFromInline_mapUrls g
  · intro u cs; rfl
  · intro u cs; rfl
  · intro s; rfl

/-- Witness for C4 at the one-paragraph document `exDoc`: its single unit is
the paragraph with text `"Hello"`. -/
theorem c4_extractor_contract_witness :
    isTranslatableBlock (Node.paragraph [Node.rawText "Hello"]) = true
    ∧ isBlank "Hello" = false
    ∧ "Hello" = extractTextFromInline (Node.paragraph [Node.rawText "Hello"]) :=
  (c4_extractor_contract exDoc id id "" "" "").1
    (Node.paragraph [Node.rawText "Hello"], "Hello") (List.Mem.head _)

/-- Claim C8: for a document whose block content is only code, fenced code or
raw-markup (HTML) blocks (plus blank lines), the extractor finds no
translatable units and `translate_file` writes out the original input text
verbatim. -/
theorem c8_verbatim_only_document_identity (content : String) (bs : List Node)
    (render : Node → String) (tr : String → Option String)
    (h : ∀ b ∈ bs, isNonTranslatableTopBlock b = true) :
    translateFileOutput content (Node.document bs) render tr = content := by
  have hx : traverseList bs = [] := by
    induction bs with
    | nil => rfl
    | cons b rest ih =>
      have hb := h b (List.mem_cons_self b rest)
      have hrest := ih (fun x hm => h x (List.mem_cons_of_mem b hm))
      cases b <;> simp_all [traverseList, traverse, isNonTranslatableTopBlock]
  simp [translateFileOutput, extractTranslatableNodes, traverse, hx]

/-- Witness for C8: a document holding a single fenced code block round-trips
the input text unchanged. -/
theorem c8_verbatim_only_document_identity_witness :
    translateFileOutput "```py\ncode\n```" (Node.document [Node.fencedCode "py" "code"])
        (fun _ => "") (fun _ => none) = "```py\ncode\n```" :=
  c8_verbatim_only_document_identity "```py\ncode\n```" [Node.fencedCode "py" "code"]
    (fun _ => "") (fun _ => none)
    (by intro b hb
        rcases List.mem_singleton.mp hb with rfl
        rfl)

/-- The non-empty filter of `translate_batch` counts exactly the non-blank
units. -/
theorem countNonBlank_eq_filter_length :
    ∀ ts : List String, (ts.filter (fun t => !(isBlank t))).length = countNonBlank ts
  | [] => rfl
  | t :: ts => by
    by_cases hb : isBlank t
    · simp [List.filter_cons, hb, countNonBlank, countNonBlank_eq_filter_length ts]
    · simp [List.filter_cons, hb, countNonBlank, countNonBlank_eq_filter_length ts]
      omega

/-- A successful fallback pass: with every per-unit call succeeding
(`oracle k = .ok (f k)`), `_translate_individually` returns the
`fallbackResult` merge and consumes exactly one call per non-blank unit. -/
theorem translateIndividually_all_ok (oracle : Nat → CallResult) (f : Nat → String)
    (hor : ∀ k, oracle k = .ok (f k)) :
    ∀ (ts : List String) (k : Nat),
      translateIndividually oracle ts k
        = (.ok (fallbackResult f ts k), k + countNonBlank ts)
  | [], k => by simp [translateIndividually, fallbackResult, countNonBlank]
  | t :: ts, k => by
    by_cases hb : isBlank t
    · have ih := translateIndividually_all_ok oracle f hor ts k
      simp [translateIndividually, fallbackResult, countNonBlank, hb, ih]
    · have ih := translateIndividually_all_ok oracle f hor ts (k + 1)
      simp [translateIndividually, fallbackResult, countNonBlank, hb, hor k, ih]
      omega

/-- `fallbackResult` has one entry per unit. -/
theorem fallbackResult_length (f : Nat → String) :
    ∀ (ts : List String) (k : Nat), (fallbackResult f ts k).length = ts.length
  | [], _ => rfl
  | t :: ts, k => by
    by_cases hb : isBlank t <;>
      simp [fallbackResult, hb, fallbackResult_length f ts]

/-- Blank units come out of a fallback pass unchanged, at their original
positions. -/
theorem fallbackResult_getElem_blank (f : Nat → String) :
    ∀ (ts : List String) (k i : Nat) (t : String), ts[i]? = some t → isBlank t = true →
      (fallbackResult f ts k)[i]? = some t
  | [], _, i, t, h, _ => by simp at h
  | t' :: ts, k, 0, t, h, hb => by
    simp at h
    subst h
    simp [fallbackResult, hb]
  | t' :: ts, k, i + 1, t, h, hb => by
    simp at h
    by_cases hb' : isBlank t'
    · simpa [fallbackResult, hb'] using fallbackResult_getElem_blank f ts k i t h hb
    · simpa [fallbackResult, hb'] using fallbackResult_getElem_blank f ts (k + 1) i t h hb

/-- The non-blank unit at position `i` receives the stripped content of the
per-unit call whose index is the number of non-blank units before it. -/
theorem fallbackResult_getElem_nonblank (f : Nat → String) :
    ∀ (ts : List String) (k i : Nat) (t : String), ts[i]? = some t → isBlank t = false →
      (fallbackResult f ts k)[i]? = some (pyStrip (f (k + countNonBlank (ts.take i))))
  | [], _, i, t, h, _ => by simp at h
  | t' :: ts, k, 0, t, h, hb => by
    simp at h
    subst h
    simp [fallbackResult, hb, countNonBlank]
  | t' :: ts, k, i + 1, t, h, hb => by
    simp at h
    by_cases hb' : isBlank t'
    · have ih := fallbackResult_getElem_nonblank f ts k i t h hb
      simpa [fallbackResult, hb', countNonBlank, List.take_succ_cons] using ih
    · have ih := fallbackResult_getElem_nonblank f ts (k + 1) i t h hb
      have harith : k + 1 + countNonBlank (ts.take i)
          = k + (1 + countNonBlank (ts.take i)) := by omega
      rw [harith] at ih
      simpa [fallbackResult, hb', countNonBlank, List.take_succ_cons] using ih

/-- A fallback pass raises only when one of its own per-unit provider calls
raised. -/
theorem translateIndividually_raises (oracle : Nat → CallResult) :
    ∀ (ts : List String) (k0 : Nat) (e : Unit) (k : Nat),
      translateIndividually oracle ts k0 = (.error e, k) → ∃ j, oracle j = .err
  | [], k0, e, k, h => by simp [translateIndividually] at h
  | t :: ts, k0, e, k, h => by
    by_cases hb : isBlank t
    · have h' : (match translateIndividually oracle ts k0 with
          | (.ok rs, j) => ((.ok (t :: rs) : Except Unit (List String)), j)
          | (.error e, j) => (.error e, j)) = (.error e, k) := by
        simpa [translateIndividually, hb] using h
      rcases hres : translateIndividually oracle ts k0 with ⟨r, j⟩
      rw [hres] at h'
      cases r with
      | ok rs => simp at h'
      | error e' => exact translateIndividually_raises oracle ts k0 e' j hres
    · cases ho : oracle k0 with
      | ok s =>
        have h' : (match translateIndividually oracle ts (k0 + 1) with
            | (.ok rs, j) => ((.ok (pyStrip s :: rs) : Except Unit (List String)), j)
            | (.error e, j) => (.error e, j)) = (.error e, k) := by
          simpa [translateIndividually, hb, ho] using h
        rcases hres : translateIndividually oracle ts (k0 + 1) with ⟨r, j⟩
        rw [hres] at h'
        cases r with
        | ok rs => simp at h'
        | error e' => exact translateIndividually_raises oracle ts (k0 + 1) e' j hres
      | err => exact ⟨k0, ho⟩

/-- `reconstruct` has one entry per unit of the original batch. -/
theorem reconstruct_length :
    ∀ (ts segs : List String), (reconstruct ts segs).length = ts.length
  | [], _ => rfl
  | t :: ts, segs => by
    by_cases hb : isBlank t
    · simp [reconstruct, hb, reconstruct_length ts segs]
    · cases segs with
      | nil => simp [reconstruct, hb, reconstruct_length ts]
      | cons s ss => simp [reconstruct, hb, reconstruct_length ts ss]

/-- `reconstruct` keeps blank units unchanged at their original positions. -/
theorem reconstruct_getElem_blank :
    ∀ (ts segs : List String) (i : Nat) (t : String), ts[i]? = some t → isBlank t = true →
      (reconstruct ts segs)[i]? = some t
  | [], _, i, t, h, _ => by simp at h
  | t' :: ts, segs, 0, t, h, hb => by
    simp at h
    subst h
    simp [reconstruct, hb]
  | t' :: ts, segs, i + 1, t, h, hb => by
    simp at h
    by_cases hb' : isBlank t'
    · simpa [reconstruct, hb'] using reconstruct_getElem_blank ts segs i t h hb
    · cases segs with
      | nil => simpa [reconstruct, hb'] using reconstruct_getElem_blank ts [] i t h hb
      | cons s ss => simpa [reconstruct, hb'] using reconstruct_getElem_blank ts ss i t h hb

/-- Claim C2: when the combined response splits into a number of segments
different from the number of non-empty units, `translate_batch` falls back to
one additional provider call per non-blank unit (the final call counter is
exactly `countNonBlank texts`), and the output still has exactly one entry
per unit of the original batch, in the original order: blank units stay at
their positions, and the unit at position `i` receives the response of the
fallback call ranked by the non-blank units before it. -/
theorem c2_mismatch_triggers_per_unit_fallback (texts : List String) (content : String)
    (oracle : Nat → CallResult) (f : Nat → String)
    (hor : ∀ k, oracle k = .ok (f k))
    (hmis : (pySplitOn (pyStrip content) SPLIT).length ≠ countNonBlank texts)
    (hnb : countNonBlank texts ≠ 0) :
    translateBatch (.ok content) oracle texts
      = (.ok (fallbackResult f texts 0), countNonBlank texts)
    ∧ (fallbackResult f texts 0).length = texts.length
    ∧ (∀ (i : Nat) (t : String), texts[i]? = some t → isBlank t = true →
        (fallbackResult f texts 0)[i]? = some t)
    ∧ (∀ (i : Nat) (t : String), texts[i]? = some t → isBlank t = false →
        (fallbackResult f texts 0)[i]?
          = some (pyStrip (f (countNonBlank (texts.take i))))) := by
  have hne : texts ≠ [] := by
    intro h
    subst h
    exact hnb rfl
  have hfil := countNonBlank_eq_filter_length texts
  have hnonempty : texts.filter (fun t => !(isBlank t)) ≠ [] := by
    intro h
    rw [h] at hfil
    exact hnb (by simpa using hfil.symm)
  have hmis' : ¬((pySplitOn (pyStrip content) SPLIT).length
      = (texts.filter (fun t => !(isBlank t))).length) := by
    rw [hfil]
    exact hmis
  have hti := translateIndividually_all_ok oracle f hor texts 0
  refine ⟨?_, fallbackResult_length f texts 0, ?_, ?_⟩
  · simp [translateBatch, hne, hnonempty, hmis', hti]
  · intro i t h hb
    exact fallbackResult_getElem_blank f texts 0 i t h hb
  · intro i t h hb
    simpa using fallbackResult_getElem_nonblank f texts 0 i t h hb

/-- Witness for C2: a three-unit batch (one blank) with a one-segment
response falls back to two per-unit calls. -/
theorem c2_mismatch_triggers_per_unit_fallback_witness :
    translateBatch (.ok "x") (fun _ => .ok " T ") ["Hello", "", "World"]
      = (.ok (fallbackResult (fun _ => " T ") ["Hello", "", "World"] 0),
         countNonBlank ["Hello", "", "World"]) :=
  (c2_mismatch_triggers_per_unit_fallback ["Hello", "", "World"] "x"
    (fun _ => .ok " T ") (fun _ => " T ") (fun _ => rfl) (by decide) (by decide)).1

/-- Claim C5: with a matching segment count, `translate_batch` reconstructs
the output positionally: blank units are returned unchanged at their
positions without any per-unit provider call (final call counter 0), the
output has one entry per unit, and in particular the batch
`["Hello", "", "World"]` with the two expected response segments yields
`["<tr:Hello>", "", "<tr:World>"]`. -/
theorem c5_blank_units_passthrough (texts : List String) (content : String)
    (oracle : Nat → CallResult)
    (hlen : (pySplitOn (pyStrip content) SPLIT).length = countNonBlank texts)
    (hnb : countNonBlank texts ≠ 0) :
    translateBatch (.ok content) oracle texts
      = (.ok (reconstruct texts (pySplitOn (pyStrip content) SPLIT)), 0)
    ∧ (reconstruct texts (pySplitOn (pyStrip content) SPLIT)).length = texts.length
    ∧ (∀ (i : Nat) (t : String), texts[i]? = some t → isBlank t = true →
        (reconstruct texts (pySplitOn (pyStrip content) SPLIT))[i]? = some t)
    ∧ translateBatch (.ok "<tr:Hello>\n\n---SPLIT---\n\n<tr:World>") oracle
        ["Hello", "", "World"] = (.ok ["<tr:Hello>", "", "<tr:World>"], 0) := by
  have hne : texts ≠ [] := by
    intro h
    subst h
    exact hnb rfl
  have hfil := countNonBlank_eq_filter_length texts
  have hnonempty : texts.filter (fun t => !(isBlank t)) ≠ [] := by
    intro h
    rw [h] at hfil
    exact hnb (by simpa using hfil.symm)
  have hlen' : (pySplitOn (pyStrip content) SPLIT).length
      = (texts.filter (fun t => !(isBlank t))).length := by
    rw [hfil]
    exact hlen
  refine ⟨?_, reconstruct_length texts _, ?_, ?_⟩
  · simp [translateBatch, hne, hnonempty, hlen']
  · intro i t h hb
    exact reconstruct_getElem_blank texts _ i t h hb
  · rfl

/-- Witness for C5 at the concrete example of the claim. -/
theorem c5_blank_units_passthrough_witness :
    translateBatch (.ok "<tr:Hello>\n\n---SPLIT---\n\n<tr:World>") (fun _ => .err)
        ["Hello", "", "World"] = (.ok ["<tr:Hello>", "", "<tr:World>"], 0) :=
  (c5_blank_units_passthrough ["Hello", "", "World"]
    "<tr:Hello>\n\n---SPLIT---\n\n<tr:World>" (fun _ => .err)
    (by decide) (by decide)).2.2.2

/-- Claim C10: an error raised by the combined batch request does not
propagate — `translate_batch` catches it and falls back to per-unit calls, so
the run fails only if one of the per-unit fallback calls fails in turn. -/
theorem c10_batch_request_error_fallback (texts : List String) (oracle : Nat → CallResult) :
    (∀ f : Nat → String, (∀ k, oracle k = .ok (f k)) →
        ∃ rs, translateBatch .err oracle texts = (.ok rs, countNonBlank texts)
          ∧ rs.length = texts.length)
    ∧ (∀ e k, translateBatch .err oracle texts = (.error e, k) → ∃ j, oracle j = .err) := by
  constructor
  · intro f hor
    by_cases hne : texts = []
    · subst hne
      exact ⟨[], by simp [translateBatch, countNonBlank], rfl⟩
    · by_cases hempty : texts.filter (fun t => !(isBlank t)) = []
      · refine ⟨texts, ?_, rfl⟩
        have hz : countNonBlank texts = 0 := by
          have hfil := countNonBlank_eq_filter_length texts
          rw [hempty] at hfil
          simpa using hfil.symm
        simp [translateBatch, hne, hempty, hz]
      · have hti := translateIndividually_all_ok oracle f hor texts 0
        refine ⟨fallbackResult f texts 0, ?_, fallbackResult_length f texts 0⟩
        simp [translateBatch, hne, hempty, hti]
  · intro e k h
    by_cases hne : texts = []
    · subst hne
      simp [translateBatch] at h
    · by_cases hempty : texts.filter (fun t => !(isBlank t)) = []
      · simp [translateBatch, hne, hempty] at h
      · have h' : translateIndividually oracle texts 0 = (.error e, k) := by
          simpa [translateBatch, hne, hempty] using h
        exact translateIndividually_raises oracle texts 0 e k h'

/-- Witness for C10: a failed batch request over `["Hi"]` still produces a
one-entry result through the fallback. -/
theorem c10_batch_request_error_fallback_witness :
    ∃ rs, translateBatch .err (fun _ => .ok "X") ["Hi"]
        = (.ok rs, countNonBlank ["Hi"])
      ∧ rs.length = (["Hi"] : List String).length :=
  (c10_batch_request_error_fallback ["Hi"] (fun _ => .ok "X")).1
    (fun _ => "X") (fun _ => rfl)

/-- Claim C3, refuted.  The claim states that a response with a client error
status (4xx) is never retried and fails immediately.  But the retry predicate
of `HTTPClient.get`/`post` includes `httpx.HTTPStatusError` without
inspecting the status code, so a 400 response *is* retried: with
`max_retries = 3` and an oracle whose first attempt returns 400 and whose
second succeeds, the request succeeds on attempt 2 instead of failing
immediately with the 400 error. -/
theorem c3_counterexample :
    retryExec badRequestTrace 3 0 = .ok 2
    ∧ retryExec badRequestTrace 3 0 ≠ .error (.httpStatus 400) := by
  constructor
  · rfl
  · intro h
    have h2 : (Except.ok 2 : Except Attempt Nat) = .error (.httpStatus 400) := h
    simp at h2

/-- Claim C3, amended: every failing attempt — timeout, connection failure,
or *any* non-2xx status (client 4xx and server 5xx alike) — matches the retry
predicate and is retried while attempts remain; only on the last allowed
attempt is the failure raised. -/
theorem c3_amended_all_failures_retried (trace : Nat → Attempt) (n i : Nat) (e : Attempt)
    (he : e ≠ .ok) (ht : trace i = e) :
    shouldRetryException e = true
    ∧ retryExec trace (n + 2) i = retryExec trace (n + 1) (i + 1)
    ∧ retryExec trace 1 i = .error e := by
  cases e with
  | ok => exact absurd rfl he
  | timeout => exact ⟨rfl, by simp [retryExec, ht, shouldRetryException], by simp [retryExec, ht]⟩
  | connError => exact ⟨rfl, by simp [retryExec, ht, shouldRetryException], by simp [retryExec, ht]⟩
  | httpStatus c =>
    exact ⟨rfl, by simp [retryExec, ht, shouldRetryException], by simp [retryExec, ht]⟩

/-- Witness for the amended C3 theorem: the first attempt's 400 is retried
(the run with three attempts continues past it), and with a single allowed
attempt the 400 is raised. -/
theorem c3_amended_all_failures_retried_witness :
    shouldRetryException (.httpStatus 400) = true
    ∧ retryExec badRequestTrace 3 0 = retryExec badRequestTrace 2 1
    ∧ retryExec badRequestTrace 1 0 = .error (.httpStatus 400) :=
  c3_amended_all_failures_retried badRequestTrace 1 0 (.httpStatus 400) (by decide) rfl

/-- Claim C7, refuted.  The claim states that each eligible URL appears
exactly once (unique, first-seen order), but `_extract_image_urls` performs
no deduplication: a document referencing the same image twice yields that URL
twice. -/
theorem c7_counterexample :
    extractImageUrls dupImageContent = ["https://x/i.png", "https://x/i.png"]
    ∧ ¬ (extractImageUrls dupImageContent).Nodup := by
  constructor
  · rfl
  · decide

/-- Claim C7, amended: the scan returns only http/https URLs, in order of
occurrence in the text (a sublist of the full occurrence list), with one
entry per occurrence — duplicates are retained, not removed. -/
theorem c7_amended_per_occurrence (content : List Piece) :
    (∀ u ∈ extractImageUrls content, isHttpUrl u = true)
    ∧ (extractImageUrls content).Sublist (content.filterMap pieceUrl)
    ∧ (∀ u : String, isHttpUrl u = true →
        (extractImageUrls content).count u = (content.filterMap pieceUrl).count u) := by
  refine ⟨?_, List.filter_sublist _, ?_⟩
  · intro u hu
    exact (List.mem_filter.mp hu).2
  · intro u hu
    exact List.count_filter hu

/-- Witness for the amended C7 theorem on the duplicated-image document. -/
theorem c7_amended_per_occurrence_witness :
    isHttpUrl "https://x/i.png" = true
    ∧ (extractImageUrls dupImageContent).count "https://x/i.png"
        = (dupImageContent.filterMap pieceUrl).count "https://x/i.png" :=
  ⟨(c7_amended_per_occurrence dupImageContent).1 "https://x/i.png" (List.Mem.head _),
   (c7_amended_per_occurrence dupImageContent).2.2 "https://x/i.png" (by decide)⟩

/-- Membership in the download map: exactly the extracted URLs whose download
succeeded, each paired with its generated filename. -/
theorem mem_buildDownloadMap (ok : String → Bool) (fname : String → String)
    (urls : List String) (u fn : String) :
    (u, fn) ∈ buildDownloadMap (downloadAssets ok fname urls)
      ↔ (u ∈ urls ∧ ok u = true ∧ fn = fname u) := by
  constructor
  · intro h
    rcases List.mem_filterMap.mp h with ⟨a, ha, hsome⟩
    rcases List.mem_map.mp ha with ⟨x, hx, rfl⟩
    by_cases hok : ok x
    · simp [hok] at hsome
      rcases hsome with ⟨rfl, rfl⟩
      exact ⟨hx, hok, rfl⟩
    · simp [hok] at hsome
  · rintro ⟨hu, hok, rfl⟩
    apply List.mem_filterMap.mpr
    refine ⟨(u, if ok u then some (fname u) else none), List.mem_map.mpr ⟨u, hu, rfl⟩, ?_⟩
    simp [hok]

/-- A local `assets/…` path is never an http/https URL. -/
theorem isHttpUrl_assets (fn : String) : isHttpUrl ("assets/" ++ fn) = false := by
  obtain ⟨l⟩ := fn
  rfl

/-- The fold of all substitution passes acts piecewise. -/
theorem rewriteImageLinks_eq_map (downloads : List (String × String)) :
    ∀ content : List Piece,
      rewriteImageLinks content downloads = content.map (rewriteAll downloads) := by
  induction downloads with
  | nil =>
    intro content
    show rewriteImageLinks content [] = content.map (fun p => p)
    simp
    rfl
  | cons uf d ih =>
    intro content
    have step : rewriteImageLinks content (uf :: d)
        = rewriteImageLinks (content.map (rewritePiece uf.1 uf.2)) d := rfl
    rw [step, ih, List.map_map]
    rfl

/-- A substitution pass never touches plain-text pieces. -/
theorem rewriteAll_txt (downloads : List (String × String)) (s : String) :
    rewriteAll downloads (.txt s) = .txt s := by
  induction downloads with
  | nil => rfl
  | cons uf d ih =>
    have step : rewriteAll (uf :: d) (Piece.txt s)
        = rewriteAll d (rewritePiece uf.1 uf.2 (.txt s)) := rfl
    rw [step]
    exact ih

/-- An image reference whose URL matches no key of the download map is left
untouched. -/
theorem rewriteAll_img_miss (downloads : List (String × String))
    (alt u : String) (title : Option String)
    (h : ∀ uf ∈ downloads, uf.1 ≠ u) :
    rewriteAll downloads (.img alt u title) = .img alt u title := by
  induction downloads with
  | nil => rfl
  | cons uf d ih =>
    have hne : uf.1 ≠ u := h uf (List.mem_cons_self uf d)
    have step : rewriteAll (uf :: d) (Piece.img alt u title)
        = rewriteAll d (rewritePiece uf.1 uf.2 (.img alt u title)) := rfl
    rw [step]
    have hr : rewritePiece uf.1 uf.2 (.img alt u title) = .img alt u title := by
      simp only [rewritePiece]
      rw [if_neg (fun he => hne he.symm)]
    rw [hr]
    exact ih (fun x hx => h x (List.mem_cons_of_mem uf hx))

/-- An image reference whose URL is a key of a download map whose keys are
all http URLs mapped to their filename is rewritten to its local
`assets/<filename>` path. -/
theorem rewriteAll_img_hit (fname : String → String) :
    ∀ (downloads : List (String × String)),
      (∀ uf ∈ downloads, isHttpUrl uf.1 = true ∧ uf.2 = fname uf.1) →
      ∀ (alt u : String) (title : Option String),
        (∃ fn, (u, fn) ∈ downloads) →
        rewriteAll downloads (.img alt u title) = .img alt ("assets/" ++ fname u) none
  | [], _, alt, u, title, hmem => by
    rcases hmem with ⟨fn, hfn⟩
    simp at hfn
  | uf :: d, hd, alt, u, title, hmem => by
    by_cases heq : uf.1 = u
    · have hval := (hd uf (List.mem_cons_self uf d)).2
      have step : rewriteAll (uf :: d) (Piece.img alt u title)
          = rewriteAll d (rewritePiece uf.1 uf.2 (.img alt u title)) := rfl
      rw [step]
      have hr : rewritePiece uf.1 uf.2 (.img alt u title)
          = .img alt ("assets/" ++ fname u) none := by
        simp [rewritePiece, heq, hval]
      rw [hr]
      apply rewriteAll_img_miss
      intro x hx hxu
      have hxh := (hd x (List.mem_cons_of_mem uf hx)).1
      rw [hxu] at hxh
      rw [isHttpUrl_assets] at hxh
      exact Bool.false_ne_true hxh
    · have step : rewriteAll (uf :: d) (Piece.img alt u title)
          = rewriteAll d (rewritePiece uf.1 uf.2 (.img alt u title)) := rfl
      rw [step]
      have hr : rewritePiece uf.1 uf.2 (.img alt u title) = .img alt u title := by
        simp only [rewritePiece]
        rw [if_neg (fun he => heq he.symm)]
      rw [hr]
      apply rewriteAll_img_hit fname d (fun x hx => hd x (List.mem_cons_of_mem uf hx))
      rcases hmem with ⟨fn, hfn⟩
      rcases List.mem_cons.mp hfn with hfn1 | hfn2
      · exact absurd (congrArg Prod.fst hfn1.symm) heq
      · exact ⟨fn, hfn2⟩

/-- Claim C6: a failed (or non-http) download is excluded from the rewrite
map and aborts nothing — the map holds exactly the successful extracted URLs
— and in the rewritten text every image reference whose URL succeeded points
at `assets/<filename>` while every reference whose URL failed or was non-http
keeps its original URL and title. -/
theorem c6_failed_downloads_left_unrewritten (content : List Piece)
    (ok : String → Bool) (fname : String → String) :
    rewriteImageLinks content
        (buildDownloadMap (downloadAssets ok fname (extractImageUrls content)))
      = content.map (rewriteSpecPiece ok fname)
    ∧ (∀ u fn : String,
        (u, fn) ∈ buildDownloadMap (downloadAssets ok fname (extractImageUrls content))
          ↔ (u ∈ extractImageUrls content ∧ ok u = true ∧ fn = fname u)) := by
  refine ⟨?_, fun u fn => mem_buildDownloadMap ok fname _ u fn⟩
  have hkeys : ∀ uf ∈ buildDownloadMap (downloadAssets ok fname (extractImageUrls content)),
      isHttpUrl uf.1 = true ∧ uf.2 = fname uf.1 := by
    intro uf hm
    have hm' := (mem_buildDownloadMap ok fname _ uf.1 uf.2).mp hm
    exact ⟨(List.mem_filter.mp hm'.1).2, hm'.2.2⟩
  rw [rewriteImageLinks_eq_map]
  apply List.map_congr_left
  intro p hp
  cases p with
  | txt s => rw [rewriteAll_txt]; rfl
  | img alt u title =>
    by_cases hhttp : isHttpUrl u
    · by_cases hok : ok u
      · have hu_urls : u ∈ extractImageUrls content :=
          List.mem_filter.mpr ⟨List.mem_filterMap.mpr ⟨.img alt u title, hp, rfl⟩, hhttp⟩
        have hd : (u, fname u)
            ∈ buildDownloadMap (downloadAssets ok fname (extractImageUrls content)) :=
          (mem_buildDownloadMap ok fname _ u (fname u)).mpr ⟨hu_urls, hok, rfl⟩
        rw [rewriteAll_img_hit fname _ hkeys alt u title ⟨fname u, hd⟩]
        simp [rewriteSpecPiece, hhttp, hok]
      · have hmiss : ∀ uf ∈ buildDownloadMap (downloadAssets ok fname
            (extractImageUrls content)), uf.1 ≠ u := by
          intro uf hm he
          have hm' := (mem_buildDownloadMap ok fname _ uf.1 uf.2).mp hm
          rw [he] at hm'
          exact hok hm'.2.1
        rw [rewriteAll_img_miss _ alt u title hmiss]
        simp [rewriteSpecPiece, hhttp, hok]
    · have hmiss : ∀ uf ∈ buildDownloadMap (downloadAssets ok fname
          (extractImageUrls content)), uf.1 ≠ u := by
        intro uf hm he
        have hh := (hkeys uf hm).1
        rw [he] at hh
        exact hhttp hh
      rw [rewriteAll_img_miss _ alt u title hmiss]
      simp [rewriteSpecPiece, hhttp]

/-- Witness for C6 on the duplicated-image document: with the download
failing for every URL, the rewrite leaves the text unchanged. -/
theorem c6_failed_downloads_left_unrewritten_witness :
    rewriteImageLinks dupImageContent
        (buildDownloadMap (downloadAssets (fun _ => false) (fun _ => "i.png")
          (extractImageUrls dupImageContent)))
      = dupImageContent.map (rewriteSpecPiece (fun _ => false) (fun _ => "i.png")) :=
  (c6_failed_downloads_left_unrewritten dupImageContent (fun _ => false)
    (fun _ => "i.png")).1

/-- Setting an occupied index trades its `countP` contribution for the new
element's. -/
theorem countP_set_aux {α : Type} (p : α → Bool) :
    ∀ (l : List α) (i : Nat) (a b : α), l[i]? = some a →
      (l.set i b).countP p + (if p a then 1 else 0)
        = l.countP p + (if p b then 1 else 0)
  | [], i, a, b, h => by simp at h
  | x :: l, 0, a, b, h => by
    simp at h
    subst h
    simp [List.countP_cons]
    omega
  | x :: l, i + 1, a, b, h => by
    simp at h
    have ih := countP_set_aux p l i a b h
    simp [List.countP_cons]
    omega

/-- Lookup at the freshly set index. -/
theorem set_getElem?_self {α : Type} :
    ∀ (l : List α) (i : Nat) (a b : α), l[i]? = some a → (l.set i b)[i]? = some b
  | [], i, a, b, h => by simp at h
  | x :: l, 0, a, b, h => by simp
  | x :: l, i + 1, a, b, h => by
    simp at h ⊢
    exact set_getElem?_self l i a b h

/-- Lookup away from the set index. -/
theorem set_getElem?_ne {α : Type} :
    ∀ (l : List α) (i j : Nat), i ≠ j → ∀ b : α, (l.set i b)[j]? = l[j]?
  | [], _, _, _, _ => by simp
  | x :: l, 0, 0, h, b => absurd rfl h
  | x :: l, 0, j + 1, h, b => by simp
  | x :: l, i + 1, 0, h, b => by simp
  | x :: l, i + 1, j + 1, h, b => by
    simp
    exact set_getElem?_ne l i j (fun he => h (by rw [he])) b

/-- One pool step preserves the task count and the permit invariant, and
bumps the started-count of exactly the task a `start` label names. -/
theorem applyLabel_spec (l : DlLabel) (s s' : DlState) (h : applyLabel l s = some s') :
    s'.tasks.length = s.tasks.length
    ∧ runningCount s' + s'.sem = runningCount s + s.sem
    ∧ (∀ i, startedO s'.tasks[i]? = startedO s.tasks[i]?
        + (if l = .start i then 1 else 0)) := by
  cases l with
  | start j =>
    cases hx : s.tasks[j]? with
    | none => simp [applyLabel, hx] at h
    | some t =>
      cases t with
      | pending =>
        by_cases hs : s.sem = 0
        · simp [applyLabel, hx, hs] at h
        · simp [applyLabel, hx, hs] at h
          subst h
          refine ⟨by simp, ?_, ?_⟩
          · have hc := countP_set_aux (fun t => t == TaskSt.running) s.tasks j
              .pending .running hx
            simp [runningCount] at hc ⊢
            omega
          · intro i
            by_cases hij : j = i
            · subst hij
              rw [show (⟨s.tasks.set j .running, s.sem - 1⟩ : DlState).tasks
                  = s.tasks.set j .running from rfl,
                set_getElem?_self s.tasks j .pending .running hx, hx]
              simp [startedO, started]
            · rw [show (⟨s.tasks.set j .running, s.sem - 1⟩ : DlState).tasks
                  = s.tasks.set j .running from rfl,
                set_getElem?_ne s.tasks j i hij .running]
              have hne : ¬(DlLabel.start j = DlLabel.start i) := by
                intro he
                injection he with he'
                exact hij he'
              simp [hne]
      | running => simp [applyLabel, hx] at h
      | done b => simp [applyLabel, hx] at h
  | finish j b =>
    cases hx : s.tasks[j]? with
    | none => simp [applyLabel, hx] at h
    | some t =>
      cases t with
      | pending => simp [applyLabel, hx] at h
      | running =>
        simp [applyLabel, hx] at h
        subst h
        refine ⟨by simp, ?_, ?_⟩
        · have hc := countP_set_aux (fun t => t == TaskSt.running) s.tasks j
            .running (.done b) hx
          simp [runningCount] at hc ⊢
          omega
        · intro i
          by_cases hij : j = i
          · subst hij
            rw [show (⟨s.tasks.set j (.done b), s.sem + 1⟩ : DlState).tasks
                = s.tasks.set j (.done b) from rfl,
              set_getElem?_self s.tasks j .running (.done b) hx, hx]
            simp [startedO, started]
          · rw [show (⟨s.tasks.set j (.done b), s.sem + 1⟩ : DlState).tasks
                = s.tasks.set j (.done b) from rfl,
              set_getElem?_ne s.tasks j i hij (.done b)]
            simp
      | done b' => simp [applyLabel, hx] at h

/-- Along any enabled trace the task count and the permit invariant are
preserved, and each task's started-count advances by the number of its
`start` labels. -/
theorem runTrace_spec :
    ∀ (tr : List DlLabel) (s0 s : DlState), runTrace tr s0 = some s →
      s.tasks.length = s0.tasks.length
      ∧ runningCount s + s.sem = runningCount s0 + s0.sem
      ∧ (∀ i, startedO s.tasks[i]? = startedO s0.tasks[i]? + countStart tr i)
  | [], s0, s, h => by
    have hs : s0 = s := by simpa [runTrace] using h
    subst hs
    exact ⟨rfl, rfl, fun i => by simp [countStart]⟩
  | l :: tr, s0, s, h => by
    cases hl : applyLabel l s0 with
    | none => simp [runTrace, hl] at h
    | some s1 =>
      have h1 : runTrace tr s1 = some s := by simpa [runTrace, hl] using h
      have hstep := applyLabel_spec l s0 s1 hl
      have ih := runTrace_spec tr s1 s h1
      refine ⟨ih.1.trans hstep.1, ?_, ?_⟩
      · rw [ih.2.1, hstep.2.1]
      · intro i
        have hc : countStart (l :: tr) i
            = (if l = .start i then 1 else 0) + countStart tr i := by
          by_cases hli : l = DlLabel.start i
          · simp [countStart, List.filter_cons, hli]
            omega
          · simp [countStart, List.filter_cons, hli]
        rw [hc, ih.2.2 i, hstep.2.2 i]
        omega

/-- The all-pending initial task list has nothing in flight. -/
theorem countP_replicate_pending (k : Nat) :
    (List.replicate k TaskSt.pending).countP (fun t => t == .running) = 0 := by
  induction k with
  | zero => rfl
  | succ k ih => simp [List.replicate_succ, List.countP_cons, ih]

/-- Claim C9: from the initial pool state with `m ≥ 1` permits and `n` URLs,
along every enabled schedule, never more than `m` downloads are in flight;
no URL is started twice; when the pool has settled every URL has been
attempted exactly once (ending `done`, successfully or not); and an unsettled
pool always has an enabled next step, regardless of how many downloads
failed. -/
theorem c9_bounded_download_pool (m n : Nat) (hm : 1 ≤ m) (tr : List DlLabel) (s : DlState)
    (hrun : runTrace tr (initState m n) = some s) :
    runningCount s ≤ m
    ∧ (∀ i, countStart tr i ≤ 1)
    ∧ (isFinal s = true → ∀ i, i < n →
        (∃ b, s.tasks[i]? = some (.done b)) ∧ countStart tr i = 1)
    ∧ (isFinal s = false → ∃ l s', applyLabel l s = some s') := by
  have hspec := runTrace_spec tr (initState m n) s hrun
  have hlen0 : (initState m n).tasks.length = n := by simp [initState]
  have hrc0 : runningCount (initState m n) = 0 := countP_replicate_pending n
  have hlen : s.tasks.length = n := hspec.1.trans hlen0
  have hsum : runningCount s + s.sem = m := by
    have hq := hspec.2.1
    rw [hrc0] at hq
    simpa [initState] using hq
  have hstart : ∀ i : Nat, countStart tr i = startedO s.tasks[i]? := by
    intro i
    have h0 : startedO (initState m n).tasks[i]? = 0 := by
      by_cases hin : i < n
      · simp [initState, List.getElem?_replicate, hin, startedO, started]
      · simp [initState, List.getElem?_replicate, hin, startedO]
    have hq := hspec.2.2 i
    rw [h0] at hq
    omega
  have hle1 : ∀ i : Nat, startedO s.tasks[i]? ≤ 1 := by
    intro i
    cases ho : s.tasks[i]? with
    | none => simp [startedO]
    | some t => cases t <;> simp [startedO, started]
  refine ⟨by omega, ?_, ?_, ?_⟩
  · intro i
    rw [hstart i]
    exact hle1 i
  · intro hfin i hin
    have hi : i < s.tasks.length := by omega
    have hx : s.tasks[i]? = some s.tasks[i] := List.getElem?_eq_getElem hi
    have hmem : s.tasks[i] ∈ s.tasks := List.getElem_mem hi
    have hall := List.all_eq_true.mp hfin _ hmem
    cases he : s.tasks[i] with
    | pending => rw [he] at hall; simp at hall
    | running => rw [he] at hall; simp at hall
    | done b =>
      rw [he] at hx
      refine ⟨⟨b, hx⟩, ?_⟩
      rw [hstart i, hx]
      simp [startedO, started]
  · intro hnf
    have hnf' : s.tasks.all
        (fun t => match t with | TaskSt.done _ => true | _ => false) = false := hnf
    rcases List.all_eq_false.mp hnf' with ⟨x, hxmem, hxp⟩
    rcases List.mem_iff_getElem.mp hxmem with ⟨i, hi, hxi⟩
    have hgi : s.tasks[i]? = some x := by
      rw [List.getElem?_eq_getElem hi, hxi]
    by_cases hrunmem : TaskSt.running ∈ s.tasks
    · rcases List.mem_iff_getElem.mp hrunmem with ⟨j, hj, hxj⟩
      have hgj : s.tasks[j]? = some .running := by
        rw [List.getElem?_eq_getElem hj, hxj]
      exact ⟨.finish j true, ⟨s.tasks.set j (.done true), s.sem + 1⟩,
        by simp [applyLabel, hgj]⟩
    · have hxpend : x = .pending := by
        cases x with
        | pending => rfl
        | running => exact absurd (hxi ▸ hxmem) hrunmem
        | done b => simp at hxp
      subst hxpend
      have hrc : runningCount s = 0 := by
        rw [runningCount, List.countP_eq_zero]
        intro a ha hpa
        have ha' : a = .running := by simpa using hpa
        subst ha'
        exact hrunmem ha
      have hsem : ¬ (s.sem = 0) := by omega
      exact ⟨.start i, ⟨s.tasks.set i .running, s.sem - 1⟩,
        by simp [applyLabel, hgi, hsem]⟩

/-- Witness for C9: the complete 8-URL, 3-permit schedule `dlTrace` (three
downloads failing) reaches the settled state `dlFinal` with at most 3 in
flight and task 5 attempted exactly once. -/
theorem c9_bounded_download_pool_witness :
    runningCount dlFinal ≤ 3 ∧ countStart dlTrace 5 = 1 := by
  have h := c9_bounded_download_pool 3 8 (by decide) dlTrace dlFinal (by decide)
  exact ⟨h.1, (h.2.2.1 (by decide) 5 (by decide)).2⟩

end Transflow
